import Mathlib

/-!
Verification of the ShipScoper vessel-schedule reconciliation core.

This file gives a shallow embedding, in Lean 4, of the parts of the
repository that the checked properties are about:

* `utils/normalization.py`  — `normalize_vessel_name`
* `processor/excel_processor.py` — `parse_eta_date`, `_merge_pair`, `cross_match`
* `scraper/eurogate_scraper.py` — `_build_logical_grid` (rowspan grid resolver)
* `check_eta_changes.py` + `scraper/email_sender.py` — the ETA change-detection
  cycle with its collaborators (datastore, identity lookup, SMTP delivery)
  modelled as an explicit environment.

Python dictionaries of string fields are modelled as association lists
(`Dict`); the external fuzzy-similarity library (`fuzzywuzzy.fuzz.ratio`)
is an abstract parameter `ratio : String → String → Nat`, since its
implementation is not part of the repository.
-/

/-- A scraped vessel record: a Python dict with string keys and values,
modelled as an insertion-ordered association list. -/
abbrev Dict := List (String × String)

/-- Python `d.get(k, "")` (and the merge code's falsy test `not d.get(k)`,
for which an absent key and the empty string behave identically). -/
def dget (d : Dict) (k : String) : String :=
  ((d.find? (fun e => decide (e.1 = k))).map (·.2)).getD ""

/-- Python `d[k] = v`: replace in place when the key exists (dicts keep the
key's original position), otherwise append the new key at the end. -/
def dset (d : Dict) (k : String) (v : String) : Dict :=
  if d.any (fun e => decide (e.1 = k)) then
    d.map (fun e => if e.1 = k then (k, v) else e)
  else
    d ++ [(k, v)]

/-- Python `str.strip()` on one side: drop leading whitespace. -/
def dropWs (l : List Char) : List Char := l.dropWhile Char.isWhitespace

/-- Python `str.strip()`: drop whitespace from both ends. -/
def pyStrip (l : List Char) : List Char := ((dropWs l).reverse.dropWhile Char.isWhitespace).reverse

/-- Helper for `collapseWs`: the flag records whether the previous character
was part of a whitespace run already replaced by a space. -/
def collapseWsAux : Bool → List Char → List Char
  | _, [] => []
  | prevWs, c :: cs =>
    if c.isWhitespace then
      if prevWs then collapseWsAux true cs else ' ' :: collapseWsAux true cs
    else c :: collapseWsAux false cs

/-- Replace every maximal run of whitespace by a single ASCII space,
the effect of the source's substitution of a whitespace run by one space. -/
def collapseWs (l : List Char) : List Char := collapseWsAux false l

/-- Embedding of `utils/normalization.py: normalize_vessel_name`:
trim, uppercase, collapse internal whitespace runs to single spaces. -/
def normalize_vessel_name (name : String) : String :=
  ⟨collapseWs ((pyStrip name.data).map Char.toUpper)⟩

/-- One position of the date regex: do the next ten characters read
DD.MM.YYYY (digits and literal dots)? -/
def matchDateHere : List Char → Option (List Char)
  | d1 :: d2 :: '.' :: m1 :: m2 :: '.' :: y1 :: y2 :: y3 :: y4 :: _ =>
    if d1.isDigit && d2.isDigit && m1.isDigit && m2.isDigit &&
       y1.isDigit && y2.isDigit && y3.isDigit && y4.isDigit then
      some [d1, d2, '.', m1, m2, '.', y1, y2, y3, y4]
    else none
  | _ => none

/-- Leftmost match of the DD.MM.YYYY pattern, the search behaviour of the
source's compiled date regular expression. -/
def findDate : List Char → Option String
  | [] => none
  | l@(_ :: rest) =>
    match matchDateHere l with
    | some cs => some ⟨cs⟩
    | none => findDate rest

/-- Embedding of `excel_processor.py: parse_eta_date`: first DD.MM.YYYY
substring of an ETA string, or `none`. -/
def parse_eta_date (s : String) : Option String := findDate s.data

/-- Lexicographic comparison of character lists by code point, the string
ordering Python's sort uses. -/
def charListLt : List Char → List Char → Bool
  | [], [] => false
  | [], _ :: _ => true
  | _ :: _, [] => false
  | a :: as, b :: bs =>
    if a.toNat < b.toNat then true
    else if b.toNat < a.toNat then false
    else charListLt as bs

/-- String comparison by code points, as Python compares strings. -/
def pyStrLt (a b : String) : Bool := charListLt a.data b.data

/-- The merged terminal label of `_merge_pair`: the set of the two labels,
keep the non-empty ones, sort, join with " + ". -/
def mergeTerminals (a b : String) : String :=
  let l := if a = b then [a] else [a, b]
  let l := l.filter (fun t => decide (t ≠ ""))
  let l := match l with
    | [x, y] => if pyStrLt y x then [y, x] else [x, y]
    | l => l
  String.intercalate " + " l

/-- Embedding of `excel_processor.py: _merge_pair`: start from a copy of the
Eurogate record, overwrite its terminal with the merged label, then backfill
every blank (absent or empty) field from the HHLA record in its key order. -/
def mergePair (eg hh : Dict) : Dict :=
  let m := dset eg "terminal" (mergeTerminals (dget eg "terminal") (dget hh "terminal"))
  hh.foldl (fun m kv => if kv.2 ≠ "" ∧ dget m kv.1 = "" then dset m kv.1 kv.2 else m) m

/-- The date gate of `cross_match`: a candidate is discarded exactly when
both extracted dates are present and differ. -/
def dateConflict : Option String → Option String → Bool
  | some x, some y => decide (x ≠ y)
  | _, _ => false

/-- The inner candidate scan of `cross_match`: over the not-yet-consumed
HHLA records in original order, skip candidates below the threshold or
failing the date gate, and keep the strictly best score (first index wins
ties, since a strict comparison is used).  The accumulator mirrors the
source's `(best_match, best_score)` pair. -/
def bestStep (ratio : String → String → Nat) (threshold : Nat) (egName : String)
    (egDate : Option String) (used : List Nat) (acc : Option Nat × Nat)
    (jh : Nat × Dict) : Option Nat × Nat :=
  if jh.1 ∈ used then acc
  else
    let score := ratio egName (normalize_vessel_name (dget jh.2 "vessel_name"))
    if score < threshold then acc
    else if dateConflict egDate (parse_eta_date (dget jh.2 "eta")) then acc
    else if acc.2 < score then (some jh.1, score) else acc

/-- The candidate-selection loop of `cross_match` for one Eurogate record. -/
def bestCandidate (ratio : String → String → Nat) (threshold : Nat) (egName : String)
    (egDate : Option String) (hhla : List Dict) (used : List Nat) : Option Nat × Nat :=
  hhla.enum.foldl (bestStep ratio threshold egName egDate used) (none, 0)

/-- A reconciled output record: the dict fields plus the `match_score`
entry the source stores into the dict (0 means unmatched). -/
structure MRec where
  fields : Dict
  match_score : Nat
deriving DecidableEq

/-- The main loop of `cross_match` over the Eurogate records, threading the
set of consumed HHLA indices. -/
def crossMatchGo (ratio : String → String → Nat) (threshold : Nat) (hhla : List Dict) :
    List Dict → List Nat → List MRec × List Nat
  | [], used => ([], used)
  | eg :: rest, used =>
    let egName := normalize_vessel_name (dget eg "vessel_name")
    let egDate := parse_eta_date (dget eg "eta")
    match bestCandidate ratio threshold egName egDate hhla used with
    | (some j, bestScore) =>
      let merged := mergePair eg (hhla.getD j [])
      let out := crossMatchGo ratio threshold hhla rest (j :: used)
      (⟨merged, bestScore⟩ :: out.1, out.2)
    | (none, _) =>
      let out := crossMatchGo ratio threshold hhla rest used
      (⟨eg, 0⟩ :: out.1, out.2)

/-- The trailing loop of `cross_match`: every HHLA record never consumed,
in original order, emitted with score 0. -/
def leftovers (hhla : List Dict) (used : List Nat) : List MRec :=
  (hhla.enum.filter (fun jh => decide (jh.1 ∉ used))).map (fun jh => ⟨jh.2, 0⟩)

/-- Embedding of `excel_processor.py: cross_match`.  The fuzzy similarity
`ratio` is the external `fuzzywuzzy.fuzz.ratio` (symmetric, 0–100), passed
as a parameter; the threshold default in the source is 85. -/
def cross_match (ratio : String → String → Nat) (threshold : Nat)
    (eurogate hhla : List Dict) : List MRec :=
  let out := crossMatchGo ratio threshold hhla eurogate []
  out.1 ++ leftovers hhla out.2

example : normalize_vessel_name " ever  given " = "EVER GIVEN" := by decide
example : normalize_vessel_name "MOL-TRIUMPH" = "MOL-TRIUMPH" := by decide
example : parse_eta_date "13.02.2026 05:30" = some "13.02.2026" := by decide
example : parse_eta_date "x123.04.2026" = some "23.04.2026" := by decide
example : parse_eta_date "" = none := by decide
example : mergeTerminals "B" "A" = "A + B" := by decide
example : mergeTerminals "A" "A" = "A" := by decide
example : mergeTerminals "" "B" = "B" := by decide

/-- A toy similarity function used only in evaluation checks: 100 on equal
normalized strings, 0 otherwise. -/
def eqRatio (a b : String) : Nat := if a = b then 100 else 0

example :
    cross_match eqRatio 85
      [[("vessel_name", "EVER GIVEN"), ("eta", "13.02.2026 05:30"), ("terminal", "A")]]
      [[("vessel_name", "EVER  GIVEN"), ("eta", "13.02.2026"), ("terminal", "B")]] =
    [⟨[("vessel_name", "EVER GIVEN"), ("eta", "13.02.2026 05:30"), ("terminal", "A + B")], 100⟩] := by
  decide

example :
    cross_match eqRatio 85
      [[("vessel_name", "EVER GIVEN"), ("eta", "13.02.2026"), ("terminal", "A")]]
      [[("vessel_name", "EVER GIVEN"), ("eta", "14.02.2026"), ("terminal", "B")]] =
    [⟨[("vessel_name", "EVER GIVEN"), ("eta", "13.02.2026"), ("terminal", "A")], 0⟩,
     ⟨[("vessel_name", "EVER GIVEN"), ("eta", "14.02.2026"), ("terminal", "B")], 0⟩] := by
  decide

/-!  Grid Resolver (`eurogate_scraper.py: _build_logical_grid`). -/

/-- One physical table cell as the resolver sees it: its stripped text and
the raw value of its rowspan attribute (`none` when the attribute is absent). -/
structure Cell where
  text : String
  rowspanAttr : Option String
deriving DecidableEq

/-- Digit run for the integer-attribute parse. -/
def digitsToNat : List Char → Option Nat
  | [] => none
  | l =>
    if l.all Char.isDigit then
      some (l.foldl (fun acc c => acc * 10 + (c.toNat - 48)) 0)
    else none

/-- Model of Python `int(str)` on attribute strings: surrounding whitespace
stripped, optional sign, a run of decimal digits; anything else raises
(returns `none` here, which the caller maps to rowspan 1).  Python's
digit-group underscores and non-ASCII digits are not modelled; such
attributes fall into the malformed (rowspan 1) case. -/
def pyInt (s : String) : Option Int :=
  match pyStrip s.data with
  | '-' :: rest => (digitsToNat rest).map (fun n => -(n : Int))
  | '+' :: rest => (digitsToNat rest).map (fun n => (n : Int))
  | l => (digitsToNat l).map (fun n => (n : Int))

/-- The resolver's rowspan handling: attribute absent or empty defaults to
"1"; a malformed integer also defaults to 1. -/
def cellRowspan (cell : Cell) : Int :=
  let s := match cell.rowspanAttr with
    | none => "1"
    | some a => if a = "" then "1" else a
  match pyInt s with
  | some n => n
  | none => 1

/-- Python `range(1, rowspan)`: the future-row offsets a spanning cell
injects its text into. -/
def spanTargets (n : Int) : List Nat := List.range' 1 (n - 1).toNat

/-- The resolver's `occupied` dict: a map from (future row, column) to the
injected text, as an association list. -/
abbrev Occ := List ((Nat × Nat) × String)

/-- Dict membership/lookup on the occupied map. -/
def occLookup : Occ → Nat × Nat → Option String
  | [], _ => none
  | e :: es, k => if e.1 = k then some e.2 else occLookup es k

/-- Dict `pop` (removal part) on the occupied map. -/
def occErase : Occ → Nat × Nat → Occ
  | [], _ => []
  | e :: es, k => if e.1 = k then es else e :: occErase es k

/-- Dict assignment on the occupied map. -/
def occInsert (occ : Occ) (k : Nat × Nat) (v : String) : Occ :=
  (k, v) :: occErase occ k

/-- Register a spanning cell's text for each of the next rowspan−1 rows at
the current column, the loop over `range(1, rowspan)` in the source. -/
def injectSpans (occ : Occ) (i c : Nat) (cell : Cell) : Occ :=
  (spanTargets (cellRowspan cell)).foldl
    (fun o r => occInsert o (i + r, c) cell.text) occ

/-- Number of occupied entries waiting for row `i`, the termination measure
of the per-row fill loop. -/
def rowCount (i : Nat) (occ : Occ) : Nat :=
  (occ.filter (fun e => decide (e.1.1 = i))).length

theorem rowCount_cons (i : Nat) (e : (Nat × Nat) × String) (occ : Occ) :
    rowCount i (e :: occ) =
      (if e.1.1 = i then rowCount i occ + 1 else rowCount i occ) := by
  by_cases h : e.1.1 = i <;> simp [rowCount, List.filter_cons, h]

theorem occErase_sublist (occ : Occ) (k : Nat × Nat) :
    List.Sublist (occErase occ k) occ := by
  induction occ with
  | nil => simp [occErase]
  | cons e es ih =>
    simp only [occErase]
    split
    · exact List.sublist_cons_self e es
    · exact List.Sublist.cons₂ e ih

theorem rowCount_le_of_sublist {occ occ' : Occ} (i : Nat)
    (h : List.Sublist occ' occ) : rowCount i occ' ≤ rowCount i occ :=
  List.Sublist.length_le (List.Sublist.filter _ h)

theorem rowCount_occErase_lt {occ : Occ} {i c : Nat} {t : String}
    (h : occLookup occ (i, c) = some t) :
    rowCount i (occErase occ (i, c)) < rowCount i occ := by
  induction occ with
  | nil => simp [occLookup] at h
  | cons e es ih =>
    by_cases he : e.1 = (i, c)
    · have h1 : e.1.1 = i := by rw [he]
      rw [occErase, if_pos he, rowCount_cons, if_pos h1]
      exact Nat.lt_succ_of_le (le_refl _)
    · simp only [occLookup, if_neg he] at h
      rw [occErase, if_neg he, rowCount_cons, rowCount_cons]
      by_cases h2 : e.1.1 = i
      · rw [if_pos h2, if_pos h2]
        exact Nat.succ_lt_succ (ih h)
      · rw [if_neg h2, if_neg h2]
        exact ih h

theorem rowCount_occInsert_le {occ : Occ} {i : Nat} {k : Nat × Nat} {v : String}
    (hk : k.1 ≠ i) : rowCount i (occInsert occ k v) ≤ rowCount i occ := by
  unfold occInsert
  rw [rowCount_cons, if_neg hk]
  exact rowCount_le_of_sublist i (occErase_sublist occ k)

theorem rowCount_injectSpans_le (occ : Occ) (i c : Nat) (cell : Cell) :
    rowCount i (injectSpans occ i c cell) ≤ rowCount i occ := by
  unfold injectSpans
  have key : ∀ (rs : List Nat) (o : Occ), (∀ r ∈ rs, 1 ≤ r) →
      rowCount i (rs.foldl (fun o r => occInsert o (i + r, c) cell.text) o) ≤
        rowCount i o := by
    intro rs
    induction rs with
    | nil => intro o _; simp
    | cons r rs ih =>
      intro o hmem
      simp only [List.foldl_cons]
      have h1 : 1 ≤ r := hmem r (List.mem_cons_self r rs)
      have hk : (i + r, c).1 ≠ i := by
        simp only
        omega
      exact le_trans (ih _ (fun x hx => hmem x (List.mem_cons_of_mem r hx)))
        (rowCount_occInsert_le hk)
  apply key
  intro r hr
  obtain ⟨j, hj, rfl⟩ := List.mem_range'.mp hr
  omega

/-- The inner while loop of `_build_logical_grid` for one physical row: at
each column position, consume a previously injected value when one exists
for (this row, this column), else take the next physical cell (registering
its rowspan injections), until both supplies are exhausted. -/
def fillRow (i : Nat) (cells : List Cell) (occ : Occ) (c : Nat) : List String × Occ :=
  match h : occLookup occ (i, c) with
  | some t =>
    let out := fillRow i cells (occErase occ (i, c)) (c + 1)
    (t :: out.1, out.2)
  | none =>
    match cells with
    | [] => ([], occ)
    | cell :: cs =>
      let out := fillRow i cs (injectSpans occ i c cell) (c + 1)
      (cell.text :: out.1, out.2)
termination_by cells.length + rowCount i occ
decreasing_by
  · have := rowCount_occErase_lt h
    omega
  · have := rowCount_injectSpans_le occ i c cell
    simp only [List.length_cons]
    omega

/-- The outer loop of `_build_logical_grid`, one physical row at a time. -/
def buildGridAux : List (List Cell) → Nat → Occ → List (List String)
  | [], _, _ => []
  | r :: rest, i, occ =>
    let out := fillRow i r occ 0
    out.1 :: buildGridAux rest (i + 1) out.2

/-- Embedding of `eurogate_scraper.py: _build_logical_grid`: resolve
rowspans into a logical grid where every row has a value for every column. -/
def build_logical_grid (rows : List (List Cell)) : List (List String) :=
  buildGridAux rows 0 []

example :
    build_logical_grid
      [[⟨"h1", none⟩, ⟨"h2", none⟩, ⟨"h3", none⟩],
       [⟨"a", some "3"⟩, ⟨"b", none⟩, ⟨"c", none⟩],
       [⟨"d", none⟩, ⟨"e", some "2"⟩],
       [⟨"f", none⟩]] =
    [["h1", "h2", "h3"], ["a", "b", "c"], ["a", "d", "e"], ["a", "f", "e"]] := by
  simp [build_logical_grid, buildGridAux, fillRow, occLookup, occErase, occInsert,
    injectSpans, spanTargets, cellRowspan, pyInt, pyStrip, dropWs, digitsToNat]

example :
    build_logical_grid [[⟨"h", some "bogus"⟩, ⟨"k", some ""⟩]] = [["h", "k"]] := by
  simp [build_logical_grid, buildGridAux, fillRow, occLookup, occErase, occInsert,
    injectSpans, spanTargets, cellRowspan, pyInt, pyStrip, dropWs, digitsToNat]

/-- Per-column span bookkeeping used to state consistency: entry `p` means
the column is still covered by an earlier spanning cell for `p` more rows. -/
def stepPending : List Nat → List Cell → List Nat
  | [], _ => []
  | p :: ps, cells =>
    if p = 0 then
      match cells with
      | [] => 0 :: stepPending ps []
      | cell :: cs => (cellRowspan cell - 1).toNat :: stepPending ps cs
    else (p - 1) :: stepPending ps cells

/-- A table's rows declare consistent rowspans (relative to a pending
vector): each row supplies exactly one physical cell for every column not
covered by a span from above. -/
def consistentFromB : List Nat → List (List Cell) → Bool
  | _, [] => true
  | pending, r :: rest =>
    decide (r.length = pending.countP (fun p => decide (p = 0))) &&
      consistentFromB (stepPending pending r) rest

/-- Declared-rowspan consistency for a table of logical width `w`. -/
def consistentB (w : Nat) (rows : List (List Cell)) : Bool :=
  consistentFromB (List.replicate w 0) rows

example :
    consistentB 3
      [[⟨"h1", none⟩, ⟨"h2", none⟩, ⟨"h3", none⟩],
       [⟨"a", some "3"⟩, ⟨"b", none⟩, ⟨"c", none⟩],
       [⟨"d", none⟩, ⟨"e", some "2"⟩],
       [⟨"f", none⟩]] = true := by
  decide

/-!  Change Detector (`check_eta_changes.py`), with its collaborators —
datastore, identity lookup, SMTP delivery (`scraper/email_sender.py`) —
modelled as an explicit environment. -/

/-- A persisted watch row (table `vessel_watches`). -/
structure Watch where
  id : Nat
  vessel_name : String
  vessel_name_normalized : String
  last_known_eta : Option String
  notification_enabled : Bool
  shipment_reference : Option String
  user_id : String
  last_notified_at : Option String
deriving DecidableEq

/-- A persisted change-notification row (table `eta_change_notifications`);
`nid` is the identifier the datastore assigns on insert. -/
structure ChangeNotification where
  nid : Nat
  watch_id : Nat
  vessel_name : String
  shipment_reference : Option String
  old_eta : Option String
  new_eta : Option String
  delay_days : Int
  notification_sent : Bool
  sent_at : Option String
deriving DecidableEq

/-- The persistent state the cycle reads and writes. -/
structure DB where
  watches : List Watch
  notifications : List ChangeNotification
  nextNotifId : Nat
deriving DecidableEq

/-- The external collaborators of one cycle.  `schedule` is the
latest-schedule lookup by normalized vessel name: an error models a thrown
datastore exception, outer `none` models "no rows", the inner option is the
row's possibly-null eta value.  `userEmail` is the identity lookup.
`smtp` is the SMTP transport used once credentials are present.
`isoDiffDays` is `datetime.fromisoformat` on both stamps followed by
`.days` of their difference, `none` when parsing raises.  `now` is the
timestamp the cycle stamps into updated rows.  Datastore writes (insert
and the two updates) are modelled as always-succeeding state updates; the
fallible collaborators the checked properties exercise are the two
lookups and the SMTP transport. -/
structure Env where
  schedule : String → Except String (Option (Option String))
  userEmail : String → Except String (Option String)
  emailAddress : String
  emailPassword : String
  smtp : String → Except String Unit
  isoDiffDays : String → String → Option Int
  now : String

/-- Embedding of `email_sender.py: _deliver_message`: reads the delivery
credentials from the environment at send time and raises a RuntimeError
naming them when either is absent, otherwise hands the message to SMTP. -/
def deliverMessage (env : Env) (toEmail : String) : Except String Unit :=
  if env.emailAddress = "" ∨ env.emailPassword = "" then
    Except.error "EMAIL_ADDRESS and EMAIL_PASSWORD must be set"
  else env.smtp toEmail

/-- Embedding of `email_sender.py: send_eta_notification`: builds the
message and delivers it through `deliverMessage`. -/
def sendEtaNotification (env : Env) (toEmail : String) : Except String Unit :=
  deliverMessage env toEmail

/-- The delay computation of `check_eta_changes`: only when both the old
and the new ETA are present (and non-empty, Python truthiness) are they
parsed; a parse failure leaves the delay at 0. -/
def delayDays (env : Env) : Option String → Option String → Int
  | some oldEta, some newEta =>
    if oldEta ≠ "" ∧ newEta ≠ "" then (env.isoDiffDays oldEta newEta).getD 0 else 0
  | _, _ => 0

/-- Datastore insert into `eta_change_notifications`: the new row starts
with `notification_sent = false` and gets the next identifier. -/
def insertNotification (db : DB) (w : Watch) (oldEta newEta : Option String)
    (delay : Int) : DB × Nat :=
  ({ db with
      notifications := db.notifications ++
        [⟨db.nextNotifId, w.id, w.vessel_name, w.shipment_reference, oldEta,
          newEta, delay, false, none⟩],
      nextNotifId := db.nextNotifId + 1 },
   db.nextNotifId)

/-- Datastore update marking a notification row as sent. -/
def markNotifSent (db : DB) (nid : Nat) (now : String) : DB :=
  { db with
      notifications := db.notifications.map (fun n =>
        if n.nid = nid then { n with notification_sent := true, sent_at := some now }
        else n) }

/-- Datastore update writing the newly observed ETA (and the notified-at
stamp) back into the watch row. -/
def updateWatchEta (db : DB) (wid : Nat) (eta : Option String) (now : String) : DB :=
  { db with
      watches := db.watches.map (fun w =>
        if w.id = wid then { w with last_known_eta := eta, last_notified_at := some now }
        else w) }

/-- Result of processing one watch inside the per-watch try block:
the new datastore state and whether the `notified` and `errors` counters
are incremented for this watch. -/
structure StepOut where
  db : DB
  notifiedInc : Bool
  errorInc : Bool
deriving DecidableEq

/-- The body of the per-watch loop of `check_eta_changes`, including its
try/except: a thrown schedule lookup or identity lookup is caught and
counted; an email failure (including absent credentials) is caught by the
inner handler and only skips the sent-flag update; the watch row is updated
and `notified` incremented whenever the change was processed through,
regardless of the email outcome. -/
def processWatch (env : Env) (db : DB) (w : Watch) : StepOut :=
  match env.schedule w.vessel_name_normalized with
  | Except.error _ => ⟨db, false, true⟩
  | Except.ok none => ⟨db, false, false⟩
  | Except.ok (some currentEta) =>
    if currentEta = w.last_known_eta then ⟨db, false, false⟩
    else
      let delay := delayDays env w.last_known_eta currentEta
      let ins := insertNotification db w w.last_known_eta currentEta delay
      match env.userEmail w.user_id with
      | Except.error _ => ⟨ins.1, false, true⟩
      | Except.ok userEmailOpt =>
        let db2 := match userEmailOpt with
          | some em =>
            match sendEtaNotification env em with
            | Except.ok _ => markNotifSent ins.1 ins.2 env.now
            | Except.error _ => ins.1
          | none => ins.1
        ⟨updateWatchEta db2 w.id currentEta env.now, true, false⟩

/-- Cycle summary: counts of watches checked, notifications triggered and
errors encountered. -/
structure Summary where
  checked : Nat
  notified : Nat
  errors : Nat
deriving DecidableEq

/-- The per-watch loop over the snapshot of active watches. -/
def cycleGo (env : Env) : List Watch → DB → Summary → DB × Summary
  | [], db, s => (db, s)
  | w :: rest, db, s =>
    let r := processWatch env db w
    cycleGo env rest r.db
      ⟨s.checked + 1,
       s.notified + (if r.notifiedInc then 1 else 0),
       s.errors + (if r.errorInc then 1 else 0)⟩

/-- Embedding of `check_eta_changes.py: check_eta_changes`: fetch the
active watches once, return the zero summary when there are none, else run
the per-watch loop and return the final state and counts. -/
def check_eta_changes (env : Env) (db : DB) : DB × Summary :=
  let watches := db.watches.filter (·.notification_enabled)
  if watches.isEmpty then (db, ⟨0, 0, 0⟩)
  else cycleGo env watches db ⟨0, 0, 0⟩

/-- Whether processing a given watch raises (and is caught): the flags of
`processWatch` do not depend on the threaded datastore state, only on the
environment and the watch row. -/
def watchErrorsB (env : Env) (w : Watch) : Bool :=
  match env.schedule w.vessel_name_normalized with
  | Except.error _ => true
  | Except.ok none => false
  | Except.ok (some currentEta) =>
    if currentEta = w.last_known_eta then false
    else
      match env.userEmail w.user_id with
      | Except.error _ => true
      | Except.ok _ => false

/-- Whether a given watch's change is processed through to the watch-state
update (which is exactly when `notified` is incremented). -/
def watchNotifiesB (env : Env) (w : Watch) : Bool :=
  match env.schedule w.vessel_name_normalized with
  | Except.error _ => false
  | Except.ok none => false
  | Except.ok (some currentEta) =>
    if currentEta = w.last_known_eta then false
    else
      match env.userEmail w.user_id with
      | Except.error _ => false
      | Except.ok _ => true

/-- A concrete environment for evaluation checks. -/
def envA : Env :=
  ⟨fun s => if s = "EVER GIVEN" then Except.ok (some (some "2026-02-13T05:30:00+01:00"))
            else Except.ok none,
   fun _ => Except.ok (some "user@example.com"),
   "sender@example.com", "pw",
   fun _ => Except.ok (),
   fun _ _ => some 3,
   "2026-02-13T06:00:00+01:00"⟩

/-- A concrete watch for evaluation checks. -/
def watchA : Watch :=
  ⟨7, "Ever Given", "EVER GIVEN", none, true, some "REF-1", "user-1", none⟩

example :
    check_eta_changes envA ⟨[watchA], [], 0⟩ =
    (⟨[⟨7, "Ever Given", "EVER GIVEN", some "2026-02-13T05:30:00+01:00", true,
        some "REF-1", "user-1", some "2026-02-13T06:00:00+01:00"⟩],
      [⟨0, 7, "Ever Given", some "REF-1", none, some "2026-02-13T05:30:00+01:00",
        0, true, some "2026-02-13T06:00:00+01:00"⟩],
      1⟩,
     ⟨1, 1, 0⟩) := by
  decide

theorem processWatch_flags (env : Env) (db : DB) (w : Watch) :
    (processWatch env db w).notifiedInc = watchNotifiesB env w ∧
    (processWatch env db w).errorInc = watchErrorsB env w := by
  unfold processWatch watchNotifiesB watchErrorsB
  cases h1 : env.schedule w.vessel_name_normalized with
  | error e => simp
  | ok d =>
    cases d with
    | none => simp
    | some cur =>
      by_cases h2 : cur = w.last_known_eta
      · simp [h2]
      · simp only [if_neg h2]
        cases h3 : env.userEmail w.user_id with
        | error e => simp
        | ok eo => simp

theorem cycleGo_summary (env : Env) (ws : List Watch) :
    ∀ (db : DB) (s : Summary),
      (cycleGo env ws db s).2 =
        ⟨s.checked + ws.length,
         s.notified + ws.countP (watchNotifiesB env),
         s.errors + ws.countP (watchErrorsB env)⟩ := by
  induction ws with
  | nil => intro db s; simp [cycleGo, List.countP_nil]
  | cons w rest ih =>
    intro db s
    rw [cycleGo, ih]
    have hf := processWatch_flags env db w
    simp only [List.length_cons, List.countP_cons, Summary.mk.injEq, hf.1, hf.2]
    refine ⟨by omega, ?_, ?_⟩
    · by_cases hn : watchNotifiesB env w = true
      · simp only [hn, if_pos]
        omega
      · simp only [hn, if_false]
        omega
    · by_cases hn : watchErrorsB env w = true
      · simp only [hn, if_pos]
        omega
      · simp only [hn, if_false]
        omega

theorem check_eta_changes_summary (env : Env) (db : DB) :
    (check_eta_changes env db).2 =
      ⟨(db.watches.filter (·.notification_enabled)).length,
       (db.watches.filter (·.notification_enabled)).countP (watchNotifiesB env),
       (db.watches.filter (·.notification_enabled)).countP (watchErrorsB env)⟩ := by
  unfold check_eta_changes
  by_cases h : (db.watches.filter (·.notification_enabled)).isEmpty
  · rw [List.isEmpty_iff] at h
    simp [h, List.isEmpty_nil]
  · simp only [h, if_neg, Bool.false_eq_true, not_false_eq_true, if_false]
    rw [cycleGo_summary]
    simp

theorem processWatch_ok (env : Env) (db : DB) (w : Watch) (cur : Option String)
    (eo : Option String)
    (hs : env.schedule w.vessel_name_normalized = Except.ok (some cur))
    (hne : cur ≠ w.last_known_eta)
    (hu : env.userEmail w.user_id = Except.ok eo) :
    ∃ db2 : DB,
      processWatch env db w = ⟨updateWatchEta db2 w.id cur env.now, true, false⟩ ∧
      db2.watches = db.watches ∧
      (db2 = (insertNotification db w w.last_known_eta cur
                (delayDays env w.last_known_eta cur)).1 ∨
       db2 = markNotifSent
               (insertNotification db w w.last_known_eta cur
                 (delayDays env w.last_known_eta cur)).1
               (insertNotification db w w.last_known_eta cur
                 (delayDays env w.last_known_eta cur)).2 env.now) := by
  unfold processWatch
  rw [hs]
  simp only [if_neg hne, hu]
  cases eo with
  | none =>
    exact ⟨_, rfl, rfl, Or.inl rfl⟩
  | some em =>
    cases hsend : sendEtaNotification env em with
    | ok u =>
      refine ⟨_, ?_, ?_, Or.inr rfl⟩
      · simp only [hsend]
      · simp [markNotifSent, insertNotification]
    | error e =>
      refine ⟨_, ?_, ?_, Or.inl rfl⟩
      · simp only [hsend]
      · simp [insertNotification]

/-- C6: Change Detector first-observation case: a watch with no recorded
ETA whose vessel has an observed ETA gets exactly one change notification
with `old_eta = none`, `new_eta` the observed ETA and `delay_days = 0`, and
the watch's `last_known_eta` is updated to the observed ETA. -/
theorem change_detector_first_observation (env : Env) (w : Watch) (nid : Nat)
    (eta : String) (eo : Option String)
    (hlast : w.last_known_eta = none)
    (hen : w.notification_enabled = true)
    (hobs : env.schedule w.vessel_name_normalized = Except.ok (some (some eta)))
    (hu : env.userEmail w.user_id = Except.ok eo) :
    ∃ sentFlag sentAt,
      check_eta_changes env ⟨[w], [], nid⟩ =
        (⟨[{ w with last_known_eta := some eta, last_notified_at := some env.now }],
          [⟨nid, w.id, w.vessel_name, w.shipment_reference, none, some eta, 0,
            sentFlag, sentAt⟩],
          nid + 1⟩,
         ⟨1, 1, 0⟩) := by
  have hne : some eta ≠ w.last_known_eta := by
    rw [hlast]
    simp
  obtain ⟨db2, hpw, hw2, hcase⟩ :=
    processWatch_ok env ⟨[w], [], nid⟩ w (some eta) eo hobs hne hu
  have hdelay : delayDays env w.last_known_eta (some eta) = 0 := by
    rw [hlast]
    rfl
  have hins : insertNotification ⟨[w], [], nid⟩ w w.last_known_eta (some eta)
      (delayDays env w.last_known_eta (some eta)) =
      (⟨[w], [⟨nid, w.id, w.vessel_name, w.shipment_reference, none, some eta, 0,
          false, none⟩], nid + 1⟩, nid) := by
    rw [hdelay, hlast]
    rfl
  have hcycle : check_eta_changes env ⟨[w], [], nid⟩ =
      ((processWatch env ⟨[w], [], nid⟩ w).db, ⟨1, 1, 0⟩) := by
    unfold check_eta_changes
    simp only [List.filter_cons, List.filter_nil, hen, if_pos]
    rw [cycleGo, hpw]
    rfl
  rcases hcase with h2 | h2
  · refine ⟨false, none, ?_⟩
    rw [hcycle, hpw]
    simp only
    rw [h2, hins]
    simp [updateWatchEta]
  · refine ⟨true, some env.now, ?_⟩
    rw [hcycle, hpw]
    simp only
    rw [h2, hins]
    simp [updateWatchEta, markNotifSent]

/-- C7: Change Detector no-op case: when the observed ETA is identical to
the watch's recorded ETA (including identical representations of no ETA),
processing the watch changes nothing and counts nothing; a single-watch
cycle returns the datastore untouched with summary (1, 0, 0). -/
theorem change_detector_noop (env : Env) (db : DB) (w : Watch)
    (hobs : env.schedule w.vessel_name_normalized = Except.ok (some w.last_known_eta)) :
    processWatch env db w = ⟨db, false, false⟩ ∧
    (db.watches = [w] → w.notification_enabled = true →
      check_eta_changes env db = (db, ⟨1, 0, 0⟩)) := by
  have h1 : processWatch env db w = ⟨db, false, false⟩ := by
    unfold processWatch
    rw [hobs]
    simp
  refine ⟨h1, ?_⟩
  intro hw hen
  unfold check_eta_changes
  rw [hw]
  simp only [List.filter_cons, List.filter_nil, hen, if_pos]
  rw [cycleGo, h1]
  rfl

/-- C8: Change Detector resilience: a watch whose datastore lookup throws
is caught and contributes exactly one to the error count, while every
watch in the snapshot (including all subsequent ones) is still processed,
and the cycle always returns the summary counts. -/
theorem change_detector_resilience (env : Env) (db : DB) (w : Watch) (e : String)
    (hmem : w ∈ db.watches.filter (·.notification_enabled))
    (herr : env.schedule w.vessel_name_normalized = Except.error e) :
    watchErrorsB env w = true ∧
    (check_eta_changes env db).2.checked =
      (db.watches.filter (·.notification_enabled)).length ∧
    (check_eta_changes env db).2.errors =
      (db.watches.filter (·.notification_enabled)).countP (watchErrorsB env) ∧
    1 ≤ (check_eta_changes env db).2.errors := by
  have hw : watchErrorsB env w = true := by
    unfold watchErrorsB
    rw [herr]
  have hs := check_eta_changes_summary env db
  refine ⟨hw, by rw [hs], by rw [hs], ?_⟩
  rw [hs]
  exact List.countP_pos_iff.mpr ⟨w, hmem, hw⟩

/-- C10 (implicit): the `notified` counter counts watches whose change was
processed through to the watch-state update; it is incremented regardless
of whether a recipient address was resolved (`eo` arbitrary) or the email
was delivered (`env.smtp` arbitrary), so it is not a delivered-email count. -/
theorem notified_counts_state_advancement (env : Env) (db : DB) (w : Watch)
    (cur : Option String) (eo : Option String)
    (hs : env.schedule w.vessel_name_normalized = Except.ok (some cur))
    (hne : cur ≠ w.last_known_eta)
    (hu : env.userEmail w.user_id = Except.ok eo) :
    (processWatch env db w).notifiedInc = true ∧
    (processWatch env db w).errorInc = false ∧
    (processWatch env db w).db.watches =
      db.watches.map (fun x =>
        if x.id = w.id then
          { x with last_known_eta := cur, last_notified_at := some env.now }
        else x) ∧
    (db.watches = [w] → w.notification_enabled = true →
      (check_eta_changes env db).2 = ⟨1, 1, 0⟩) := by
  obtain ⟨db2, hpw, hw2, _⟩ := processWatch_ok env db w cur eo hs hne hu
  refine ⟨by rw [hpw], by rw [hpw], ?_, ?_⟩
  · rw [hpw]
    simp only [updateWatchEta, hw2]
  · intro hw hen
    rw [check_eta_changes_summary]
    rw [hw]
    simp only [List.filter_cons, List.filter_nil, hen, if_pos]
    have hn : watchNotifiesB env w = true := by
      unfold watchNotifiesB
      simp [hs, hne, hu]
    have he : watchErrorsB env w = false := by
      unfold watchErrorsB
      simp [hs, hne, hu]
    simp [List.countP_cons, hn, he]

theorem change_detector_first_observation_witness :
    ∃ sentFlag sentAt,
      check_eta_changes envA ⟨[watchA], [], 0⟩ =
        (⟨[{ watchA with
             last_known_eta := some "2026-02-13T05:30:00+01:00",
             last_notified_at := some envA.now }],
          [⟨0, watchA.id, watchA.vessel_name, watchA.shipment_reference, none,
            some "2026-02-13T05:30:00+01:00", 0, sentFlag, sentAt⟩],
          0 + 1⟩,
         ⟨1, 1, 0⟩) :=
  change_detector_first_observation envA watchA 0 "2026-02-13T05:30:00+01:00"
    (some "user@example.com") (by rfl) (by rfl) (by rfl) (by rfl)

/-- A watch whose recorded ETA equals the observed one. -/
def c7watch : Watch :=
  ⟨3, "Maersk Essen", "MAERSK ESSEN", some "2026-03-01T10:00:00+01:00", true,
   none, "user-7", none⟩

/-- Environment observing exactly the recorded ETA. -/
def c7env : Env :=
  ⟨fun _ => Except.ok (some (some "2026-03-01T10:00:00+01:00")),
   fun _ => Except.ok none, "a", "p", fun _ => Except.ok (), fun _ _ => none, "T"⟩

/-- Datastore for the no-op witness. -/
def c7db : DB := ⟨[c7watch], [], 5⟩

theorem change_detector_noop_witness :
    processWatch c7env c7db c7watch = ⟨c7db, false, false⟩ ∧
    (c7db.watches = [c7watch] → c7watch.notification_enabled = true →
      check_eta_changes c7env c7db = (c7db, ⟨1, 0, 0⟩)) :=
  change_detector_noop c7env c7db c7watch (by rfl)

/-- Environment whose schedule lookup always throws. -/
def c8env : Env :=
  ⟨fun _ => Except.error "connection reset", fun _ => Except.ok none,
   "a", "p", fun _ => Except.ok (), fun _ _ => none, "T"⟩

/-- First watch of the resilience witness. -/
def c8watchA : Watch := ⟨1, "Alpha", "ALPHA", none, true, none, "u1", none⟩

/-- Second watch of the resilience witness, processed after the failing one. -/
def c8watchB : Watch := ⟨2, "Beta", "BETA", none, true, none, "u2", none⟩

/-- Datastore with two active watches. -/
def c8db : DB := ⟨[c8watchA, c8watchB], [], 0⟩

theorem change_detector_resilience_witness :
    watchErrorsB c8env c8watchA = true ∧
    (check_eta_changes c8env c8db).2.checked =
      (c8db.watches.filter (·.notification_enabled)).length ∧
    (check_eta_changes c8env c8db).2.errors =
      (c8db.watches.filter (·.notification_enabled)).countP (watchErrorsB c8env) ∧
    1 ≤ (check_eta_changes c8env c8db).2.errors :=
  change_detector_resilience c8env c8db c8watchA "connection reset"
    (by decide) (by rfl)

/-- Environment for the notified-count witness: the change is observed but
the recipient address does not resolve and SMTP would fail anyway. -/
def c10env : Env :=
  ⟨fun _ => Except.ok (some (some "2026-04-01T00:00:00+01:00")),
   fun _ => Except.ok none, "", "",
   fun _ => Except.error "smtp down", fun _ _ => none, "T10"⟩

/-- Watch with a differing recorded ETA. -/
def c10watch : Watch :=
  ⟨4, "Xin Hamburg", "XIN HAMBURG", some "2026-03-30T00:00:00+01:00", true,
   none, "u", none⟩

/-- Datastore for the notified-count witness. -/
def c10db : DB := ⟨[c10watch], [], 0⟩

theorem notified_counts_state_advancement_witness :
    (processWatch c10env c10db c10watch).notifiedInc = true ∧
    (processWatch c10env c10db c10watch).errorInc = false ∧
    (processWatch c10env c10db c10watch).db.watches =
      c10db.watches.map (fun x =>
        if x.id = c10watch.id then
          { x with last_known_eta := some "2026-04-01T00:00:00+01:00",
                   last_notified_at := some c10env.now }
        else x) ∧
    (c10db.watches = [c10watch] → c10watch.notification_enabled = true →
      (check_eta_changes c10env c10db).2 = ⟨1, 1, 0⟩) :=
  notified_counts_state_advancement c10env c10db c10watch
    (some "2026-04-01T00:00:00+01:00") none (by rfl) (by decide) (by rfl)

/-- Environment with the delivery address credential absent but everything
else functional: the C9 counterexample input. -/
def c9env : Env :=
  ⟨fun _ => Except.ok (some (some "2026-05-01T00:00:00+02:00")),
   fun _ => Except.ok (some "user@example.com"),
   "", "pw", fun _ => Except.ok (), fun _ _ => none, "T9"⟩

/-- Watch observing a first ETA under the credential-less environment. -/
def c9watch : Watch := ⟨9, "Nine Dragons", "NINE DRAGONS", none, true, none, "u9", none⟩

/-- C9 counterexample: with a delivery credential absent, the system does
NOT fail at component construction before per-watch work begins — the
cycle runs, inserts the notification row (per-item work), leaves it
unsent, advances the watch state and returns the summary; the named
credential error is raised only inside message delivery and is swallowed
by the per-watch email handler. -/
theorem config_failfast_counterexample :
    c9env.emailAddress = "" ∧
    deliverMessage c9env "user@example.com" =
      Except.error "EMAIL_ADDRESS and EMAIL_PASSWORD must be set" ∧
    check_eta_changes c9env ⟨[c9watch], [], 0⟩ =
      (⟨[{ c9watch with
           last_known_eta := some "2026-05-01T00:00:00+02:00",
           last_notified_at := some "T9" }],
        [⟨0, 9, "Nine Dragons", none, none, some "2026-05-01T00:00:00+02:00",
          0, false, none⟩],
        1⟩,
       ⟨1, 1, 0⟩) := by
  refine ⟨rfl, rfl, ?_⟩
  decide

/-- C9 as amended: absent delivery credentials surface as the named
RuntimeError of `_deliver_message` at message-delivery time, per message,
not at component construction; in the change cycle the per-watch work has
already begun, the error is caught by the per-watch email handler, the
notification row remains unsent, and the watch state still advances. -/
theorem config_failure_at_delivery (env : Env) (toEmail : String) (db : DB)
    (w : Watch) (cur : Option String) (em : String)
    (hcred : env.emailAddress = "" ∨ env.emailPassword = "")
    (hs : env.schedule w.vessel_name_normalized = Except.ok (some cur))
    (hne : cur ≠ w.last_known_eta)
    (hu : env.userEmail w.user_id = Except.ok (some em)) :
    deliverMessage env toEmail =
      Except.error "EMAIL_ADDRESS and EMAIL_PASSWORD must be set" ∧
    processWatch env db w =
      ⟨updateWatchEta
         (insertNotification db w w.last_known_eta cur
           (delayDays env w.last_known_eta cur)).1
         w.id cur env.now,
       true, false⟩ := by
  have hd : ∀ t, deliverMessage env t =
      Except.error "EMAIL_ADDRESS and EMAIL_PASSWORD must be set" := by
    intro t
    unfold deliverMessage
    rw [if_pos hcred]
  refine ⟨hd toEmail, ?_⟩
  unfold processWatch
  rw [hs]
  simp only [if_neg hne, hu]
  have hd2 : sendEtaNotification env em =
      Except.error "EMAIL_ADDRESS and EMAIL_PASSWORD must be set" := hd em
  simp only [hd2]

theorem config_failure_at_delivery_witness :
    deliverMessage c9env "user@example.com" =
      Except.error "EMAIL_ADDRESS and EMAIL_PASSWORD must be set" ∧
    processWatch c9env ⟨[c9watch], [], 0⟩ c9watch =
      ⟨updateWatchEta
         (insertNotification ⟨[c9watch], [], 0⟩ c9watch c9watch.last_known_eta
           (some "2026-05-01T00:00:00+02:00")
           (delayDays c9env c9watch.last_known_eta
             (some "2026-05-01T00:00:00+02:00"))).1
         c9watch.id (some "2026-05-01T00:00:00+02:00") c9env.now,
       true, false⟩ :=
  config_failure_at_delivery c9env "user@example.com" ⟨[c9watch], [], 0⟩ c9watch
    (some "2026-05-01T00:00:00+02:00") "user@example.com"
    (Or.inl rfl) (by rfl) (by decide) (by rfl)

/-- The invariant of the candidate-selection accumulator: any selected
index points at a real, unconsumed HHLA record whose score is the pair's
ratio, at least the threshold and positive, and which passed the date gate. -/
def accOk (ratio : String → String → Nat) (threshold : Nat) (egName : String)
    (egDate : Option String) (hhla : List Dict) (used : List Nat)
    (acc : Option Nat × Nat) : Prop :=
  ∀ j, acc.1 = some j →
    threshold ≤ acc.2 ∧ 0 < acc.2 ∧
    acc.2 = ratio egName (normalize_vessel_name (dget (hhla.getD j []) "vessel_name")) ∧
    dateConflict egDate (parse_eta_date (dget (hhla.getD j []) "eta")) = false ∧
    j < hhla.length ∧ j ∉ used

theorem bestStep_ok (ratio : String → String → Nat) (threshold : Nat)
    (egName : String) (egDate : Option String) (hhla : List Dict)
    (used : List Nat) (acc : Option Nat × Nat) (jh : Nat × Dict)
    (hget : hhla.getD jh.1 [] = jh.2) (hlt : jh.1 < hhla.length)
    (hacc : accOk ratio threshold egName egDate hhla used acc) :
    accOk ratio threshold egName egDate hhla used
      (bestStep ratio threshold egName egDate used acc jh) := by
  unfold bestStep
  by_cases h1 : jh.1 ∈ used
  · simpa [h1] using hacc
  · simp only [if_neg h1]
    by_cases h2 : ratio egName (normalize_vessel_name (dget jh.2 "vessel_name")) < threshold
    · simpa [h2] using hacc
    · simp only [if_neg h2]
      by_cases h3 : dateConflict egDate (parse_eta_date (dget jh.2 "eta")) = true
      · simpa [h3] using hacc
      · simp only [h3, if_false]
        by_cases h4 : acc.2 < ratio egName (normalize_vessel_name (dget jh.2 "vessel_name"))
        · simp only [if_pos h4]
          intro j hj
          obtain rfl : jh.1 = j := Option.some.inj hj
          rw [hget]
          refine ⟨Nat.le_of_not_lt h2,
            (by show 0 < ratio egName (normalize_vessel_name (dget jh.2 "vessel_name"))
                omega),
            rfl, ?_, hlt, h1⟩
          exact Bool.not_eq_true _ ▸ h3
        · simpa [h4] using hacc

theorem bestCandidate_ok (ratio : String → String → Nat) (threshold : Nat)
    (egName : String) (egDate : Option String) (hhla : List Dict)
    (used : List Nat) :
    accOk ratio threshold egName egDate hhla used
      (bestCandidate ratio threshold egName egDate hhla used) := by
  unfold bestCandidate
  have key : ∀ (l : List (Nat × Dict)) (acc : Option Nat × Nat),
      (∀ jh ∈ l, hhla.getD jh.1 [] = jh.2 ∧ jh.1 < hhla.length) →
      accOk ratio threshold egName egDate hhla used acc →
      accOk ratio threshold egName egDate hhla used
        (l.foldl (bestStep ratio threshold egName egDate used) acc) := by
    intro l
    induction l with
    | nil => intro acc _ h; exact h
    | cons jh rest ih =>
      intro acc hmem hacc
      simp only [List.foldl_cons]
      refine ih _ (fun x hx => hmem x (List.mem_cons_of_mem _ hx)) ?_
      obtain ⟨hget, hlt⟩ := hmem jh (List.mem_cons_self _ _)
      exact bestStep_ok ratio threshold egName egDate hhla used acc jh hget hlt hacc
  refine key _ _ ?_ ?_
  · intro jh hjh
    have h := List.mem_enum_iff_getElem?.mp hjh
    obtain ⟨hb, hv⟩ := List.getElem?_eq_some.mp h
    constructor
    · rw [List.getD_eq_getElem?_getD, h]
      rfl
    · exact hb
  · intro j hj
    simp at hj

theorem bestCandidate_singleton (ratio : String → String → Nat) (threshold : Nat)
    (egName : String) (egDate : Option String) (hh : Dict) :
    bestCandidate ratio threshold egName egDate [hh] [] =
      bestStep ratio threshold egName egDate [] (none, 0) (0, hh) := by
  rfl

theorem cross_match_singleton_hit (ratio : String → String → Nat) (threshold : Nat)
    (eg hh : Dict)
    (hsc : ¬ ratio (normalize_vessel_name (dget eg "vessel_name"))
             (normalize_vessel_name (dget hh "vessel_name")) < threshold)
    (hpos : 0 < ratio (normalize_vessel_name (dget eg "vessel_name"))
             (normalize_vessel_name (dget hh "vessel_name")))
    (hdate : dateConflict (parse_eta_date (dget eg "eta"))
               (parse_eta_date (dget hh "eta")) = false) :
    cross_match ratio threshold [eg] [hh] =
      [⟨mergePair eg hh,
        ratio (normalize_vessel_name (dget eg "vessel_name"))
          (normalize_vessel_name (dget hh "vessel_name"))⟩] := by
  have hb : bestCandidate ratio threshold
      (normalize_vessel_name (dget eg "vessel_name"))
      (parse_eta_date (dget eg "eta")) [hh] [] =
      (some 0,
       ratio (normalize_vessel_name (dget eg "vessel_name"))
         (normalize_vessel_name (dget hh "vessel_name"))) := by
    rw [bestCandidate_singleton]
    unfold bestStep
    simp [hsc, hdate, hpos]
  simp only [cross_match, crossMatchGo]
  rw [hb]
  simp [leftovers, crossMatchGo]

theorem cross_match_singleton_low (ratio : String → String → Nat) (threshold : Nat)
    (eg hh : Dict)
    (hsc : ratio (normalize_vessel_name (dget eg "vessel_name"))
             (normalize_vessel_name (dget hh "vessel_name")) < threshold) :
    cross_match ratio threshold [eg] [hh] = [⟨eg, 0⟩, ⟨hh, 0⟩] := by
  have hb : bestCandidate ratio threshold
      (normalize_vessel_name (dget eg "vessel_name"))
      (parse_eta_date (dget eg "eta")) [hh] [] = (none, 0) := by
    rw [bestCandidate_singleton]
    unfold bestStep
    simp [hsc]
  simp only [cross_match, crossMatchGo]
  rw [hb]
  simp [leftovers, crossMatchGo]

theorem cross_match_singleton_dategate (ratio : String → String → Nat)
    (threshold : Nat) (eg hh : Dict)
    (hdc : dateConflict (parse_eta_date (dget eg "eta"))
             (parse_eta_date (dget hh "eta")) = true) :
    cross_match ratio threshold [eg] [hh] = [⟨eg, 0⟩, ⟨hh, 0⟩] := by
  have hb : bestCandidate ratio threshold
      (normalize_vessel_name (dget eg "vessel_name"))
      (parse_eta_date (dget eg "eta")) [hh] [] = (none, 0) := by
    rw [bestCandidate_singleton]
    unfold bestStep
    by_cases hsc : ratio (normalize_vessel_name (dget eg "vessel_name"))
        (normalize_vessel_name (dget hh "vessel_name")) < threshold
    · simp [hsc]
    · simp [hsc, hdc]
  simp only [cross_match, crossMatchGo]
  rw [hb]
  simp [leftovers, crossMatchGo]

theorem dateConflict_none_right (a : Option String) : dateConflict a none = false := by
  cases a <;> rfl

/-- C1: Cross-Matcher threshold boundary: a pair scoring exactly the
threshold 85 is eligible and, all else equal (single candidate, date gate
passing), does match with that score; and in general any selected
candidate's score is the pair's ratio and is at least 85, so a pair
scoring 84 is never the matched pair. -/
theorem cross_matcher_threshold_boundary (ratio : String → String → Nat)
    (eg hh : Dict)
    (h85 : ratio (normalize_vessel_name (dget eg "vessel_name"))
             (normalize_vessel_name (dget hh "vessel_name")) = 85)
    (hdate : dateConflict (parse_eta_date (dget eg "eta"))
               (parse_eta_date (dget hh "eta")) = false) :
    cross_match ratio 85 [eg] [hh] = [⟨mergePair eg hh, 85⟩] ∧
    (∀ (egName : String) (egDate : Option String) (hhla : List Dict)
        (used : List Nat) (j : Nat),
      (bestCandidate ratio 85 egName egDate hhla used).1 = some j →
      ratio egName (normalize_vessel_name (dget (hhla.getD j []) "vessel_name")) ≠ 84) := by
  constructor
  · have h := cross_match_singleton_hit ratio 85 eg hh (by omega) (by omega) hdate
    rw [h85] at h
    exact h
  · intro egName egDate hhla used j hj
    obtain ⟨hth, _, heq, _, _, _⟩ := bestCandidate_ok ratio 85 egName egDate hhla used j hj
    omega

/-- Similarity function for the C1 witness: 85 on equal normalized names,
84 otherwise. -/
def c1ratio (a b : String) : Nat := if a = b then 85 else 84

/-- Eurogate-side record of the C1 witness. -/
def c1eg : Dict := [("vessel_name", "MSC OSCAR"), ("terminal", "A")]

/-- HHLA-side record of the C1 witness. -/
def c1hh : Dict := [("vessel_name", "msc  oscar"), ("terminal", "B")]

theorem cross_matcher_threshold_boundary_witness :
    cross_match c1ratio 85 [c1eg] [c1hh] = [⟨mergePair c1eg c1hh, 85⟩] :=
  (cross_matcher_threshold_boundary c1ratio c1eg c1hh (by decide) (by decide)).1

/-- C2: Cross-Matcher date gate: any candidate the selection loop picks
passed the date gate (so two present-but-different dates never match, even
at similarity 100), while a candidate without an extractable date is never
discarded by the gate. -/
theorem cross_matcher_date_gate (ratio : String → String → Nat) (threshold : Nat)
    (eg hh : Dict) :
    (∀ (egName : String) (egDate : Option String) (hhla : List Dict)
        (used : List Nat) (j : Nat),
      (bestCandidate ratio threshold egName egDate hhla used).1 = some j →
      dateConflict egDate (parse_eta_date (dget (hhla.getD j []) "eta")) = false) ∧
    (ratio (normalize_vessel_name (dget eg "vessel_name"))
        (normalize_vessel_name (dget hh "vessel_name")) = 100 →
      ∀ d1 d2, parse_eta_date (dget eg "eta") = some d1 →
        parse_eta_date (dget hh "eta") = some d2 → d1 ≠ d2 →
        cross_match ratio 85 [eg] [hh] = [⟨eg, 0⟩, ⟨hh, 0⟩]) ∧
    (¬ ratio (normalize_vessel_name (dget eg "vessel_name"))
        (normalize_vessel_name (dget hh "vessel_name")) < 85 →
      parse_eta_date (dget hh "eta") = none →
      cross_match ratio 85 [eg] [hh] =
        [⟨mergePair eg hh,
          ratio (normalize_vessel_name (dget eg "vessel_name"))
            (normalize_vessel_name (dget hh "vessel_name"))⟩]) := by
  refine ⟨?_, ?_, ?_⟩
  · intro egName egDate hhla used j hj
    obtain ⟨_, _, _, hdc, _, _⟩ :=
      bestCandidate_ok ratio threshold egName egDate hhla used j hj
    exact hdc
  · intro _ d1 d2 hd1 hd2 hne
    apply cross_match_singleton_dategate
    rw [hd1, hd2]
    simpa [dateConflict] using hne
  · intro hsc hnone
    apply cross_match_singleton_hit ratio 85 eg hh hsc (by omega)
    rw [hnone]
    exact dateConflict_none_right _

/-- Similarity function for the C2 witness: 100 on equal normalized names. -/
def c2ratio (a b : String) : Nat := if a = b then 100 else 0

/-- Eurogate-side record of the C2 witness, with a 13.02.2026 date. -/
def c2eg : Dict :=
  [("vessel_name", "EVER GIVEN"), ("eta", "13.02.2026 05:30"), ("terminal", "A")]

/-- HHLA-side record with the same name but a different date. -/
def c2hh : Dict :=
  [("vessel_name", "EVER GIVEN"), ("eta", "14.02.2026"), ("terminal", "B")]

/-- HHLA-side record with the same name and no extractable date. -/
def c2hhNoDate : Dict :=
  [("vessel_name", "EVER GIVEN"), ("eta", "tbd"), ("terminal", "B")]

theorem cross_matcher_date_gate_witness :
    cross_match c2ratio 85 [c2eg] [c2hh] = [⟨c2eg, 0⟩, ⟨c2hh, 0⟩] ∧
    cross_match c2ratio 85 [c2eg] [c2hhNoDate] =
      [⟨mergePair c2eg c2hhNoDate,
        c2ratio (normalize_vessel_name (dget c2eg "vessel_name"))
          (normalize_vessel_name (dget c2hhNoDate "vessel_name"))⟩] :=
  ⟨(cross_matcher_date_gate c2ratio 85 c2eg c2hh).2.1 (by decide)
      "13.02.2026" "14.02.2026" (by decide) (by decide) (by decide),
   (cross_matcher_date_gate c2ratio 85 c2eg c2hhNoDate).2.2 (by decide) (by decide)⟩

/-- C3: end-to-end merge scenario: the EVER GIVEN record from terminal A
and the doubly-spaced EVER  GIVEN record from terminal B (same extracted
date) merge into a single record whose terminal is the sorted join
"A + B", whose ETA is A's (non-blank fields of A win), and whose score is
the pair's similarity, at least 85.  The only assumption on the external
similarity function is that equal normalized names score at least the
threshold (fuzzywuzzy scores identical strings 100). -/
theorem merge_end_to_end (ratio : String → String → Nat)
    (hr : 85 ≤ ratio "EVER GIVEN" "EVER GIVEN") :
    cross_match ratio 85
      [[("vessel_name", "EVER GIVEN"), ("eta", "13.02.2026 05:30"), ("terminal", "A")]]
      [[("vessel_name", "EVER  GIVEN"), ("eta", "13.02.2026"), ("terminal", "B")]] =
    [⟨[("vessel_name", "EVER GIVEN"), ("eta", "13.02.2026 05:30"), ("terminal", "A + B")],
      ratio "EVER GIVEN" "EVER GIVEN"⟩] ∧
    85 ≤ ratio "EVER GIVEN" "EVER GIVEN" := by
  have hn1 : normalize_vessel_name
      (dget [("vessel_name", "EVER GIVEN"), ("eta", "13.02.2026 05:30"),
             ("terminal", "A")] "vessel_name") = "EVER GIVEN" := by decide
  have hn2 : normalize_vessel_name
      (dget [("vessel_name", "EVER  GIVEN"), ("eta", "13.02.2026"),
             ("terminal", "B")] "vessel_name") = "EVER GIVEN" := by decide
  have hm : mergePair
      [("vessel_name", "EVER GIVEN"), ("eta", "13.02.2026 05:30"), ("terminal", "A")]
      [("vessel_name", "EVER  GIVEN"), ("eta", "13.02.2026"), ("terminal", "B")] =
      [("vessel_name", "EVER GIVEN"), ("eta", "13.02.2026 05:30"),
       ("terminal", "A + B")] := by decide
  refine ⟨?_, hr⟩
  have h := cross_match_singleton_hit ratio 85
    [("vessel_name", "EVER GIVEN"), ("eta", "13.02.2026 05:30"), ("terminal", "A")]
    [("vessel_name", "EVER  GIVEN"), ("eta", "13.02.2026"), ("terminal", "B")]
    (by rw [hn1, hn2]; omega) (by rw [hn1, hn2]; omega) (by decide)
  rw [hn1, hn2, hm] at h
  exact h

theorem merge_end_to_end_witness :
    cross_match eqRatio 85
      [[("vessel_name", "EVER GIVEN"), ("eta", "13.02.2026 05:30"), ("terminal", "A")]]
      [[("vessel_name", "EVER  GIVEN"), ("eta", "13.02.2026"), ("terminal", "B")]] =
    [⟨[("vessel_name", "EVER GIVEN"), ("eta", "13.02.2026 05:30"), ("terminal", "A + B")],
      eqRatio "EVER GIVEN" "EVER GIVEN"⟩] ∧
    85 ≤ eqRatio "EVER GIVEN" "EVER GIVEN" :=
  merge_end_to_end eqRatio (by decide)

theorem countP_mem_range (n : Nat) (u : List Nat) (hb : ∀ j ∈ u, j < n)
    (hnd : u.Nodup) :
    (List.range n).countP (fun j => decide (j ∈ u)) = u.length := by
  rw [List.countP_eq_length_filter]
  have h1 : List.Nodup ((List.range n).filter (fun j => decide (j ∈ u))) :=
    List.Nodup.filter _ (List.nodup_range n)
  have hp : ((List.range n).filter (fun j => decide (j ∈ u))).Perm u := by
    rw [List.perm_ext_iff_of_nodup h1 hnd]
    intro a
    simp only [List.mem_filter, List.mem_range, decide_eq_true_eq]
    constructor
    · rintro ⟨_, h⟩
      exact h
    · intro h
      exact ⟨hb a h, h⟩
  exact hp.length_eq

theorem countP_not_mem_range (n : Nat) (u : List Nat) (hb : ∀ j ∈ u, j < n)
    (hnd : u.Nodup) :
    (List.range n).countP (fun j => decide (j ∉ u)) = n - u.length := by
  have h := List.length_eq_countP_add_countP (p := fun j => decide (j ∈ u))
    (l := List.range n)
  rw [List.length_range] at h
  have h2 := countP_mem_range n u hb hnd
  have h3 : (List.range n).countP (fun a => ¬(decide (a ∈ u) = true)) =
      (List.range n).countP (fun j => decide (j ∉ u)) := by
    apply List.countP_congr
    intro a _
    simp
  omega

theorem leftovers_length (B : List Dict) (used : List Nat)
    (hb : ∀ j ∈ used, j < B.length) (hnd : used.Nodup) :
    (leftovers B used).length = B.length - used.length := by
  unfold leftovers
  rw [List.length_map, ← List.countP_eq_length_filter]
  have h1 : (B.enum).countP (fun jh => decide (jh.1 ∉ used)) =
      ((B.enum).map Prod.fst).countP (fun j => decide (j ∉ used)) := by
    rw [List.countP_map]
    rfl
  rw [h1, List.enum_map_fst, countP_not_mem_range _ _ hb hnd]

theorem leftovers_sublist (B : List Dict) (used : List Nat) :
    List.Sublist (leftovers B used) (B.map (fun b => ⟨b, 0⟩)) := by
  unfold leftovers
  have h2 := List.Sublist.map (fun jh : Nat × Dict => (⟨jh.2, 0⟩ : MRec))
    (List.filter_sublist (l := B.enum) (p := fun jh => decide (jh.1 ∉ used)))
  have h3 : B.enum.map (fun jh : Nat × Dict => (⟨jh.2, 0⟩ : MRec)) =
      B.map (fun b => ⟨b, 0⟩) := by
    rw [show (fun jh : Nat × Dict => (⟨jh.2, 0⟩ : MRec)) =
        (fun b => (⟨b, 0⟩ : MRec)) ∘ Prod.snd from rfl,
      ← List.map_map, List.enum_map_snd]
  rw [h3] at h2
  exact h2

theorem leftovers_score (B : List Dict) (used : List Nat) :
    ∀ r ∈ leftovers B used, r.match_score = 0 := by
  intro r hr
  unfold leftovers at hr
  obtain ⟨jh, _, rfl⟩ := List.mem_map.mp hr
  rfl

/-- An output record derived from the A-record `a`: either `a` itself
unmatched with score 0, or a merge of `a` with some B-record at a positive
score. -/
def aDerived (B : List Dict) (a : Dict) (rec : MRec) : Prop :=
  rec = ⟨a, 0⟩ ∨ ∃ b ∈ B, rec.fields = mergePair a b ∧ 0 < rec.match_score

theorem crossMatchGo_spec (ratio : String → String → Nat) (threshold : Nat)
    (B : List Dict) :
    ∀ (A : List Dict) (used : List Nat),
      (∀ j ∈ used, j < B.length) → used.Nodup →
      (crossMatchGo ratio threshold B A used).1.length = A.length ∧
      (∀ j ∈ (crossMatchGo ratio threshold B A used).2, j < B.length) ∧
      (crossMatchGo ratio threshold B A used).2.Nodup ∧
      (crossMatchGo ratio threshold B A used).2.length =
        used.length +
          (crossMatchGo ratio threshold B A used).1.countP
            (fun r => decide (0 < r.match_score)) ∧
      (∀ i, i < A.length →
        aDerived B (A.getD i []) ((crossMatchGo ratio threshold B A used).1.getD i ⟨[], 0⟩)) := by
  intro A
  induction A with
  | nil =>
    intro used hb hnd
    refine ⟨rfl, hb, hnd, by simp [crossMatchGo], ?_⟩
    intro i hi
    exact absurd hi (Nat.not_lt_zero i)
  | cons eg rest ih =>
    intro used hb hnd
    rcases hbc : bestCandidate ratio threshold
      (normalize_vessel_name (dget eg "vessel_name"))
      (parse_eta_date (dget eg "eta")) B used with ⟨bm, bs⟩
    cases bm with
    | some j =>
      obtain ⟨hth, hpos, heq, hdc, hjlt, hju⟩ :=
        bestCandidate_ok ratio threshold
          (normalize_vessel_name (dget eg "vessel_name"))
          (parse_eta_date (dget eg "eta")) B used j (by rw [hbc])
      rw [hbc] at hpos
      simp only at hpos
      have hgo : crossMatchGo ratio threshold B (eg :: rest) used =
          (⟨mergePair eg (B.getD j []), bs⟩ ::
            (crossMatchGo ratio threshold B rest (j :: used)).1,
           (crossMatchGo ratio threshold B rest (j :: used)).2) := by
        simp only [crossMatchGo, hbc]
      have hb' : ∀ x ∈ j :: used, x < B.length := by
        intro x hx
        rcases List.mem_cons.mp hx with rfl | hx
        · exact hjlt
        · exact hb x hx
      have hnd' : (j :: used).Nodup := List.nodup_cons.mpr ⟨hju, hnd⟩
      obtain ⟨ihl, ihb, ihnd, ihc, ihd⟩ := ih (j :: used) hb' hnd'
      rw [hgo]
      refine ⟨by simpa using ihl, ihb, ihnd, ?_, ?_⟩
      · have : (0 : Nat) < bs := hpos
        simp only [List.countP_cons, decide_eq_true_eq]
        rw [if_pos this]
        simp only [List.length_cons] at ihc
        omega
      · intro i hi
        cases i with
        | zero =>
          refine Or.inr ⟨B.getD j [], ?_, rfl, hpos⟩
          have hg : B.getD j [] = B.get ⟨j, hjlt⟩ := by
            rw [List.getD_eq_getElem?_getD, List.getElem?_eq_getElem hjlt]
            rfl
          rw [hg]
          exact List.get_mem B j hjlt
        | succ i =>
          simp only [List.getD_cons_succ]
          exact ihd i (by simpa using hi)
    | none =>
      have hgo : crossMatchGo ratio threshold B (eg :: rest) used =
          (⟨eg, 0⟩ :: (crossMatchGo ratio threshold B rest used).1,
           (crossMatchGo ratio threshold B rest used).2) := by
        simp only [crossMatchGo, hbc]
      obtain ⟨ihl, ihb, ihnd, ihc, ihd⟩ := ih used hb hnd
      rw [hgo]
      refine ⟨by simpa using ihl, ihb, ihnd, ?_, ?_⟩
      · simp only [List.countP_cons, decide_eq_true_eq]
        rw [if_neg (by omega)]
        exact ihc
      · intro i hi
        cases i with
        | zero => exact Or.inl rfl
        | succ i =>
          simp only [List.getD_cons_succ]
          exact ihd i (by simpa using hi)

/-- C4: Cross-Matcher totality and output order: the output length is
len A + len B − (number of matched pairs, i.e. records carrying a positive
score); the output is the per-A-record part (one record per A-record, in
A's order, each either the A-record unmatched or a merge with some
B-record) followed by the never-consumed B-records, a subsequence of B in
original order, all with score 0. -/
theorem cross_matcher_totality_order (ratio : String → String → Nat)
    (threshold : Nat) (A B : List Dict) :
    (cross_match ratio threshold A B).length =
      A.length + B.length -
        (cross_match ratio threshold A B).countP (fun r => decide (0 < r.match_score)) ∧
    cross_match ratio threshold A B =
      (crossMatchGo ratio threshold B A []).1 ++
        leftovers B (crossMatchGo ratio threshold B A []).2 ∧
    (crossMatchGo ratio threshold B A []).1.length = A.length ∧
    (∀ i, i < A.length →
      aDerived B (A.getD i []) ((crossMatchGo ratio threshold B A []).1.getD i ⟨[], 0⟩)) ∧
    List.Sublist (leftovers B (crossMatchGo ratio threshold B A []).2)
      (B.map (fun b => ⟨b, 0⟩)) ∧
    (∀ r ∈ leftovers B (crossMatchGo ratio threshold B A []).2, r.match_score = 0) := by
  obtain ⟨hl, hbnd, hnd, hc, hd⟩ := crossMatchGo_spec ratio threshold B A []
    (by intro j h; cases h) List.nodup_nil
  have heq : cross_match ratio threshold A B =
      (crossMatchGo ratio threshold B A []).1 ++
        leftovers B (crossMatchGo ratio threshold B A []).2 := rfl
  refine ⟨?_, heq, hl, hd, leftovers_sublist _ _, leftovers_score _ _⟩
  rw [heq, List.length_append, List.countP_append]
  have hz : (leftovers B (crossMatchGo ratio threshold B A []).2).countP
      (fun r => decide (0 < r.match_score)) = 0 := by
    rw [List.countP_eq_zero]
    intro r hr
    have h0 := leftovers_score B _ r hr
    simp [h0]
  have hll := leftovers_length B (crossMatchGo ratio threshold B A []).2 hbnd hnd
  have hle : (crossMatchGo ratio threshold B A []).2.length ≤ B.length := by
    rw [← countP_mem_range B.length _ hbnd hnd]
    exact le_trans (List.countP_le_length _) (le_of_eq (List.length_range _))
  rw [hz, hll, hl]
  simp only [List.length_nil] at hc
  omega

theorem cross_matcher_totality_order_witness :
    (cross_match eqRatio 85 [c2eg] [c2hh, c2hhNoDate]).length =
      1 + 2 - (cross_match eqRatio 85 [c2eg] [c2hh, c2hhNoDate]).countP
        (fun r => decide (0 < r.match_score)) ∧
    aDerived [c2hh, c2hhNoDate] ([c2eg].getD 0 [])
      ((crossMatchGo eqRatio 85 [c2hh, c2hhNoDate] [c2eg] []).1.getD 0 ⟨[], 0⟩) :=
  ⟨(cross_matcher_totality_order eqRatio 85 [c2eg] [c2hh, c2hhNoDate]).1,
   (cross_matcher_totality_order eqRatio 85 [c2eg] [c2hh, c2hhNoDate]).2.2.2.1 0
     (by decide)⟩

/-- The keys of the occupied map. -/
def occKeys (occ : Occ) : List (Nat × Nat) := occ.map Prod.fst

theorem occLookup_eq_none_iff (occ : Occ) (k : Nat × Nat) :
    occLookup occ k = none ↔ ∀ e ∈ occ, e.1 ≠ k := by
  induction occ with
  | nil => simp [occLookup]
  | cons e es ih =>
    by_cases h : e.1 = k
    · simp [occLookup, h]
    · simp [occLookup, h, ih]

theorem occKeys_occErase_nodup {occ : Occ} (k : Nat × Nat)
    (hnd : (occKeys occ).Nodup) : (occKeys (occErase occ k)).Nodup :=
  List.Nodup.sublist (List.Sublist.map Prod.fst (occErase_sublist occ k)) hnd

theorem occLookup_occErase_self {occ : Occ} {k : Nat × Nat}
    (hnd : (occKeys occ).Nodup) : occLookup (occErase occ k) k = none := by
  induction occ with
  | nil => rfl
  | cons e es ih =>
    simp only [occKeys, List.map_cons, List.nodup_cons] at hnd
    by_cases h : e.1 = k
    · rw [occErase, if_pos h]
      rw [occLookup_eq_none_iff]
      intro x hx hxk
      exact hnd.1 (h ▸ hxk ▸ List.mem_map_of_mem Prod.fst hx)
    · rw [occErase, if_neg h, occLookup, if_neg h]
      exact ih hnd.2

theorem occLookup_occErase_ne {occ : Occ} {k k' : Nat × Nat} (hne : k' ≠ k) :
    occLookup (occErase occ k) k' = occLookup occ k' := by
  induction occ with
  | nil => rfl
  | cons e es ih =>
    by_cases h : e.1 = k
    · rw [occErase, if_pos h, occLookup, if_neg (by rw [h]; exact fun hh => hne hh.symm)]
    · rw [occErase, if_neg h]
      by_cases h2 : e.1 = k'
      · rw [occLookup, if_pos h2, occLookup, if_pos h2]
      · rw [occLookup, if_neg h2, occLookup, if_neg h2, ih]

theorem occKeys_not_mem_occErase {occ : Occ} {k : Nat × Nat}
    (hnd : (occKeys occ).Nodup) : k ∉ occKeys (occErase occ k) := by
  induction occ with
  | nil => simp [occErase, occKeys]
  | cons e es ih =>
    simp only [occKeys, List.map_cons, List.nodup_cons] at hnd
    by_cases h : e.1 = k
    · rw [occErase, if_pos h]
      exact h ▸ hnd.1
    · rw [occErase, if_neg h]
      intro hmem
      rcases List.mem_map.mp hmem with ⟨x, hx, hxk⟩
      rcases List.mem_cons.mp hx with rfl | hx
      · exact h hxk
      · have hm : x.1 ∈ occKeys (occErase es k) := List.mem_map_of_mem Prod.fst hx
        exact ih hnd.2 (hxk ▸ hm)

theorem occKeys_occInsert_nodup {occ : Occ} (k : Nat × Nat) (v : String)
    (hnd : (occKeys occ).Nodup) : (occKeys (occInsert occ k v)).Nodup := by
  unfold occInsert occKeys
  rw [List.map_cons, List.nodup_cons]
  exact ⟨occKeys_not_mem_occErase hnd, occKeys_occErase_nodup k hnd⟩

theorem occLookup_occInsert_self (occ : Occ) (k : Nat × Nat) (v : String) :
    occLookup (occInsert occ k v) k = some v := by
  rw [occInsert, occLookup, if_pos rfl]

theorem occLookup_occInsert_ne (occ : Occ) {k k' : Nat × Nat} (v : String)
    (hne : k' ≠ k) : occLookup (occInsert occ k v) k' = occLookup occ k' := by
  rw [occInsert, occLookup, if_neg (fun hh => hne hh.symm), occLookup_occErase_ne hne]

theorem foldl_occInsert_lookup (i c : Nat) (v : String) :
    ∀ (rs : List Nat) (occ : Occ) (k : Nat × Nat),
      occLookup (rs.foldl (fun o r => occInsert o (i + r, c) v) occ) k =
        (if ∃ r ∈ rs, k = (i + r, c) then some v else occLookup occ k) := by
  intro rs
  induction rs with
  | nil => intro occ k; simp
  | cons a rest ih =>
    intro occ k
    rw [List.foldl_cons, ih]
    by_cases h1 : ∃ r ∈ rest, k = (i + r, c)
    · rw [if_pos h1, if_pos ?_]
      obtain ⟨r, hr, rfl⟩ := h1
      exact ⟨r, List.mem_cons_of_mem a hr, rfl⟩
    · rw [if_neg h1]
      by_cases h2 : k = (i + a, c)
      · rw [if_pos ⟨a, List.mem_cons_self a rest, h2⟩, h2,
          occLookup_occInsert_self]
      · rw [if_neg ?_, occLookup_occInsert_ne occ v h2]
        intro hmem
        obtain ⟨r, hr, hk⟩ := hmem
        rcases List.mem_cons.mp hr with rfl | hr
        · exact h2 hk
        · exact h1 ⟨r, hr, hk⟩

theorem foldl_occInsert_nodup (i c : Nat) (v : String) :
    ∀ (rs : List Nat) (occ : Occ),
      (occKeys occ).Nodup →
      (occKeys (rs.foldl (fun o r => occInsert o (i + r, c) v) occ)).Nodup := by
  intro rs
  induction rs with
  | nil => intro occ h; exact h
  | cons a rest ih =>
    intro occ h
    rw [List.foldl_cons]
    exact ih _ (occKeys_occInsert_nodup _ v h)

theorem injectSpans_lookup (occ : Occ) (i c : Nat) (cell : Cell) (k : Nat × Nat) :
    occLookup (injectSpans occ i c cell) k =
      (if ∃ r ∈ spanTargets (cellRowspan cell), k = (i + r, c) then some cell.text
       else occLookup occ k) :=
  foldl_occInsert_lookup i c cell.text _ occ k

theorem injectSpans_nodup (occ : Occ) (i c : Nat) (cell : Cell)
    (hnd : (occKeys occ).Nodup) :
    (occKeys (injectSpans occ i c cell)).Nodup :=
  foldl_occInsert_nodup i c cell.text _ occ hnd

theorem mem_spanTargets {n : Int} {r : Nat} :
    r ∈ spanTargets n ↔ 1 ≤ r ∧ r < 1 + (n - 1).toNat := by
  unfold spanTargets
  rw [List.mem_range']
  constructor
  · rintro ⟨j, hj, rfl⟩
    omega
  · rintro ⟨h1, h2⟩
    exact ⟨r - 1, by omega, by omega⟩

theorem fillRow_eq_pop {i : Nat} {cells : List Cell} {occ : Occ} {c : Nat}
    {t : String} (h : occLookup occ (i, c) = some t) :
    fillRow i cells occ c =
      (t :: (fillRow i cells (occErase occ (i, c)) (c + 1)).1,
       (fillRow i cells (occErase occ (i, c)) (c + 1)).2) := by
  cases cells with
  | nil =>
    rw [fillRow.eq_1]
    split
    next t2 h2 =>
      rw [h] at h2
      cases h2
      rfl
    next h2 =>
      rw [h] at h2
      cases h2
  | cons cell cs =>
    rw [fillRow.eq_2]
    split
    next t2 h2 =>
      rw [h] at h2
      cases h2
      rfl
    next h2 =>
      rw [h] at h2
      cases h2

theorem fillRow_eq_stop {i : Nat} {occ : Occ} {c : Nat}
    (h : occLookup occ (i, c) = none) :
    fillRow i [] occ c = ([], occ) := by
  rw [fillRow.eq_1]
  split
  next t2 h2 =>
    rw [h] at h2
    cases h2
  next h2 =>
    rfl

theorem fillRow_eq_take {i : Nat} {cell : Cell} {cs : List Cell} {occ : Occ}
    {c : Nat} (h : occLookup occ (i, c) = none) :
    fillRow i (cell :: cs) occ c =
      (cell.text :: (fillRow i cs (injectSpans occ i c cell) (c + 1)).1,
       (fillRow i cs (injectSpans occ i c cell) (c + 1)).2) := by
  rw [fillRow.eq_2]
  split
  next t2 h2 =>
    rw [h] at h2
    cases h2
  next h2 =>
    rfl

theorem getD_append_left {α : Type} (l l2 : List α) (d : α) (n : Nat)
    (h : n < l.length) : (l ++ l2).getD n d = l.getD n d := by
  induction l generalizing n with
  | nil => exact absurd h (Nat.not_lt_zero n)
  | cons a t ih =>
    cases n with
    | zero => rfl
    | succ n =>
      simp only [List.cons_append, List.getD_cons_succ]
      exact ih n (by simpa using h)

theorem getD_append_right {α : Type} (l l2 : List α) (d : α) (n : Nat)
    (h : l.length ≤ n) : (l ++ l2).getD n d = l2.getD (n - l.length) d := by
  induction l generalizing n with
  | nil => simp
  | cons a t ih =>
    cases n with
    | zero => exact absurd h (by simp)
    | succ n =>
      simp only [List.cons_append, List.getD_cons_succ, List.length_cons]
      rw [ih n (by simpa using h)]
      congr 1
      omega

theorem stepPending_length (pending : List Nat) (cells : List Cell) :
    (stepPending pending cells).length = pending.length := by
  induction pending generalizing cells with
  | nil => rfl
  | cons p ps ih =>
    by_cases hp : p = 0
    · subst hp
      cases cells with
      | nil => simp [stepPending, ih]
      | cons cell cs => simp [stepPending, ih]
    · simp [stepPending, hp, ih]

/-- The mid-row invariant of the fill loop: row `i` is being processed and
the scan is at column `c`; columns before `c` have been resolved this row
(their remaining coverage for future rows is `pdone`, one entry per
processed column), columns from `c` on are untouched (their coverage,
current row included, is `prest`).  The occupied map holds an entry at
`(r, cc)` exactly for the rows such a column is still covered for. -/
def OccInv (i c : Nat) (pdone prest : List Nat) (occ : Occ) : Prop :=
  ∀ r cc, ((occLookup occ (r, cc)).isSome = true) ↔
    (if cc < c then i + 1 ≤ r ∧ r - (i + 1) < pdone.getD cc 0
     else cc - c < prest.length ∧ i ≤ r ∧ r - i < prest.getD (cc - c) 0)

theorem fillRow_inv (i : Nat) :
    ∀ (prest : List Nat) (cells : List Cell) (c : Nat) (pdone : List Nat) (occ : Occ),
      pdone.length = c →
      cells.length = prest.countP (fun p => decide (p = 0)) →
      (occKeys occ).Nodup →
      OccInv i c pdone prest occ →
      (fillRow i cells occ c).1.length = prest.length ∧
      (occKeys (fillRow i cells occ c).2).Nodup ∧
      OccInv (i + 1) 0 [] (pdone ++ stepPending prest cells) (fillRow i cells occ c).2 := by
  intro prest
  induction prest with
  | nil =>
    intro cells c pdone occ hlen hcnt hnd hinv
    have hc0 : cells = [] :=
      List.length_eq_zero.mp (hcnt.trans (List.countP_nil _))
    subst hc0
    have hnone : occLookup occ (i, c) = none := by
      have h := hinv i c
      rw [if_neg (lt_irrefl c)] at h
      simp only [List.length_nil] at h
      rcases ho : occLookup occ (i, c) with _ | t
      · rfl
      · exfalso
        have hs : (occLookup occ (i, c)).isSome = true := by
          rw [ho]
          rfl
        exact absurd (h.mp hs).1 (by omega)
    rw [fillRow_eq_stop hnone]
    refine ⟨rfl, hnd, ?_⟩
    show OccInv (i + 1) 0 [] (pdone ++ []) occ
    rw [List.append_nil]
    intro r cc
    have h := hinv r cc
    rw [if_neg (Nat.not_lt_zero cc)]
    simp only [Nat.sub_zero]
    by_cases hcc : cc < c
    · rw [if_pos hcc] at h
      rw [h]
      constructor
      · intro hh
        exact ⟨by omega, hh.1, hh.2⟩
      · intro hh
        exact ⟨hh.2.1, hh.2.2⟩
    · rw [if_neg hcc] at h
      simp only [List.length_nil] at h
      constructor
      · intro hs
        exact absurd (h.mp hs).1 (by omega)
      · intro hh
        exact absurd hh.1 (by omega)
  | cons p ps ih =>
    intro cells c pdone occ hlen hcnt hnd hinv
    rw [List.countP_cons] at hcnt
    by_cases hp : p = 0
    · subst hp
      simp only [decide_eq_true_eq, eq_self_iff_true, if_true, if_pos] at hcnt
      cases cells with
      | nil =>
        exfalso
        simp only [List.length_nil] at hcnt
        omega
      | cons cell cs =>
        have hnone : occLookup occ (i, c) = none := by
          have h := hinv i c
          rw [if_neg (lt_irrefl c)] at h
          simp only [Nat.sub_self, List.getD_cons_zero] at h
          rcases ho : occLookup occ (i, c) with _ | t
          · rfl
          · exfalso
            have hs : (occLookup occ (i, c)).isSome = true := by
              rw [ho]
              rfl
            exact absurd (h.mp hs).2.2 (by omega)
        rw [fillRow_eq_take hnone]
        have hnd2 : (occKeys (injectSpans occ i c cell)).Nodup :=
          injectSpans_nodup occ i c cell hnd
        have hgd : (pdone ++ [(cellRowspan cell - 1).toNat]).getD c 0 =
            (cellRowspan cell - 1).toNat := by
          rw [getD_append_right pdone _ 0 c (le_of_eq hlen)]
          simp [hlen]
        have hinv2 : OccInv i (c + 1) (pdone ++ [(cellRowspan cell - 1).toNat]) ps
            (injectSpans occ i c cell) := by
          intro r cc
          rw [injectSpans_lookup]
          by_cases hmem : ∃ rr ∈ spanTargets (cellRowspan cell), (r, cc) = (i + rr, c)
          · rw [if_pos hmem]
            simp only [Option.isSome_some]
            obtain ⟨rr, hrr, heq2⟩ := hmem
            obtain ⟨hrr1, hrr2⟩ := mem_spanTargets.mp hrr
            have hr_eq : r = i + rr := congrArg Prod.fst heq2
            have hcc_eq : cc = c := congrArg Prod.snd heq2
            rw [hcc_eq, if_pos (Nat.lt_succ_self c), hgd]
            constructor
            · intro _
              omega
            · intro _
              trivial
          · rw [if_neg hmem]
            have h := hinv r cc
            by_cases hcc : cc < c
            · rw [if_pos hcc] at h
              rw [h, if_pos (by omega : cc < c + 1),
                getD_append_left pdone _ 0 cc (by omega)]
            · by_cases hcc2 : cc = c
              · subst hcc2
                rw [if_neg (lt_irrefl cc)] at h
                simp only [Nat.sub_self, List.getD_cons_zero] at h
                rw [if_pos (Nat.lt_succ_self cc), hgd]
                rw [h]
                constructor
                · intro hh
                  exact absurd hh.2.2 (by omega)
                · rintro ⟨h1, h2⟩
                  exfalso
                  apply hmem
                  refine ⟨r - i, mem_spanTargets.mpr ⟨by omega, by omega⟩, ?_⟩
                  have hx : i + (r - i) = r := by omega
                  rw [hx]
              · have hgt : c < cc := by omega
                rw [if_neg hcc] at h
                rw [if_neg (by omega : ¬ cc < c + 1)]
                have hsub : cc - c = (cc - (c + 1)) + 1 := by omega
                rw [hsub, List.getD_cons_succ, List.length_cons] at h
                rw [h]
                omega
        obtain ⟨ih1, ih2, ih3⟩ := ih cs (c + 1)
          (pdone ++ [(cellRowspan cell - 1).toNat]) (injectSpans occ i c cell)
          (by simp [hlen]) (by simpa using hcnt) hnd2 hinv2
        refine ⟨by simp [ih1], ih2, ?_⟩
        have hstep : stepPending (0 :: ps) (cell :: cs) =
            (cellRowspan cell - 1).toNat :: stepPending ps cs := by
          simp [stepPending]
        rw [hstep]
        have hassoc : pdone ++ (cellRowspan cell - 1).toNat :: stepPending ps cs =
            (pdone ++ [(cellRowspan cell - 1).toNat]) ++ stepPending ps cs := by
          simp
        rw [hassoc]
        exact ih3
    · have hsome : ∃ t, occLookup occ (i, c) = some t := by
        have h := hinv i c
        rw [if_neg (lt_irrefl c)] at h
        simp only [Nat.sub_self, List.getD_cons_zero, List.length_cons] at h
        have hs : (occLookup occ (i, c)).isSome = true :=
          h.mpr ⟨by omega, le_refl i, by omega⟩
        exact Option.isSome_iff_exists.mp hs
      obtain ⟨t, ht⟩ := hsome
      rw [fillRow_eq_pop ht]
      have hnd2 := occKeys_occErase_nodup (i, c) hnd
      have hgd : (pdone ++ [p - 1]).getD c 0 = p - 1 := by
        rw [getD_append_right pdone _ 0 c (le_of_eq hlen)]
        simp [hlen]
      have hinv2 : OccInv i (c + 1) (pdone ++ [p - 1]) ps (occErase occ (i, c)) := by
        intro r cc
        by_cases hk : (r, cc) = (i, c)
        · have hr_eq : r = i := congrArg Prod.fst hk
          have hcc_eq : cc = c := congrArg Prod.snd hk
          rw [hk, occLookup_occErase_self hnd]
          simp only [Option.isSome_none]
          rw [hcc_eq, if_pos (Nat.lt_succ_self c), hgd]
          constructor
          · intro hh
            exact absurd hh Bool.false_ne_true
          · rintro ⟨h1, _⟩
            exact absurd h1 (by omega)
        · rw [occLookup_occErase_ne hk]
          have h := hinv r cc
          by_cases hcc : cc < c
          · rw [if_pos hcc] at h
            rw [h, if_pos (by omega : cc < c + 1),
              getD_append_left pdone _ 0 cc (by omega)]
          · by_cases hcc2 : cc = c
            · subst hcc2
              rw [if_neg (lt_irrefl cc)] at h
              simp only [Nat.sub_self, List.getD_cons_zero, List.length_cons] at h
              have hri : r ≠ i := by
                intro hri
                apply hk
                rw [hri]
              rw [if_pos (Nat.lt_succ_self cc), hgd, h]
              omega
            · have hgt : c < cc := by omega
              rw [if_neg hcc] at h
              rw [if_neg (by omega : ¬ cc < c + 1)]
              have hsub : cc - c = (cc - (c + 1)) + 1 := by omega
              rw [hsub, List.getD_cons_succ, List.length_cons] at h
              rw [h]
              omega
      obtain ⟨ih1, ih2, ih3⟩ := ih cells (c + 1) (pdone ++ [p - 1])
        (occErase occ (i, c)) (by simp [hlen])
        (by simp only [decide_eq_true_eq] at hcnt; simpa [hp] using hcnt) hnd2 hinv2
      refine ⟨by simp [ih1], ih2, ?_⟩
      have hstep : stepPending (p :: ps) cells = (p - 1) :: stepPending ps cells := by
        simp [stepPending, hp]
      rw [hstep]
      have hassoc : pdone ++ (p - 1) :: stepPending ps cells =
          (pdone ++ [p - 1]) ++ stepPending ps cells := by
        simp
      rw [hassoc]
      exact ih3

theorem buildGridAux_widths (W : Nat) :
    ∀ (rows : List (List Cell)) (i : Nat) (occ : Occ) (pending : List Nat),
      pending.length = W →
      (occKeys occ).Nodup →
      OccInv i 0 [] pending occ →
      consistentFromB pending rows = true →
      ∀ row ∈ buildGridAux rows i occ, row.length = W := by
  intro rows
  induction rows with
  | nil =>
    intro i occ pending _ _ _ _ row hrow
    cases hrow
  | cons r rest ih =>
    intro i occ pending hl hnd hinv hc row hrow
    rw [consistentFromB, Bool.and_eq_true, decide_eq_true_eq] at hc
    obtain ⟨hc1, hc2⟩ := hc
    obtain ⟨f1, f2, f3⟩ := fillRow_inv i pending r 0 [] occ rfl hc1 hnd hinv
    simp only [buildGridAux] at hrow
    rcases List.mem_cons.mp hrow with rfl | hrow
    · rw [f1, hl]
    · refine ih (i + 1) _ (stepPending pending r)
        (by rw [stepPending_length, hl]) f2 ?_ hc2 row hrow
      simpa using f3

theorem getD_replicate_zero (W k : Nat) : (List.replicate W (0 : Nat)).getD k 0 = 0 := by
  induction W generalizing k with
  | zero => rfl
  | succ n ih =>
    cases k with
    | zero => rfl
    | succ k => exact ih k

/-- C5: Grid Resolver completeness: for a table whose declared rowspans
are consistent with logical width `W`, every row of the resolved grid has
exactly `W` columns — in particular exactly as many columns as the header
row (row 0). -/
theorem grid_resolver_completeness (W : Nat) (rows : List (List Cell))
    (hc : consistentB W rows = true) :
    (∀ row ∈ build_logical_grid rows, row.length = W) ∧
    (∀ row ∈ build_logical_grid rows,
      row.length = ((build_logical_grid rows).headD []).length) := by
  have hall : ∀ row ∈ build_logical_grid rows, row.length = W := by
    refine buildGridAux_widths W rows 0 [] (List.replicate W 0)
      (List.length_replicate W 0) List.nodup_nil ?_ hc
    intro r cc
    constructor
    · intro hs
      exact absurd hs (by rw [show occLookup [] (r, cc) = none from rfl]; simp)
    · intro hh
      rw [if_neg (Nat.not_lt_zero cc)] at hh
      rw [getD_replicate_zero] at hh
      exact absurd hh.2.2 (by omega)
  refine ⟨hall, ?_⟩
  intro row hrow
  rcases hgrid : build_logical_grid rows with _ | ⟨h0, rest⟩
  · rw [hgrid] at hrow
    cases hrow
  · have h1 : row.length = W := hall row hrow
    have h2 : h0.length = W := hall h0 (by rw [hgrid]; exact List.mem_cons_self h0 rest)
    simp only [List.headD_cons]
    rw [h1, h2]

/-- The rowspan table of the C5 witness: a 3-wide table with a 3-row span
in column 0 and a 2-row span in column 2. -/
def c5rows : List (List Cell) :=
  [[⟨"h1", none⟩, ⟨"h2", none⟩, ⟨"h3", none⟩],
   [⟨"a", some "3"⟩, ⟨"b", none⟩, ⟨"c", none⟩],
   [⟨"d", none⟩, ⟨"e", some "2"⟩],
   [⟨"f", none⟩]]

theorem grid_resolver_completeness_witness :
    consistentB 3 c5rows = true ∧ (["a", "f", "e"] : List String).length = 3 :=
  ⟨by decide,
   (grid_resolver_completeness 3 c5rows (by decide)).1 ["a", "f", "e"]
     (by simp [c5rows, build_logical_grid, buildGridAux, fillRow, occLookup,
       occErase, occInsert, injectSpans, spanTargets, cellRowspan, pyInt,
       pyStrip, dropWs, digitsToNat])⟩
